import Mathlib

/-!
# Verification of the saiba-parser EZO RTD response parsers

Shallow embedding of `src/src/lib.rs`: three parsers for textual responses of
an EZO RTD temperature sensor, sharing the framing validator
`str_from_response`.  Byte buffers are modelled as `List Nat` (each element a
byte value), Rust `&str` values as `List Char` (the sequence of Unicode
scalar values), `Result<T>` as `Except Error T`.  `error_chain` wraps causes
under an outer `ErrorKind`; only the outer kind (`MalformedResponse` or
`ResponseParse`) is observable through the claims, so `Error` carries just
the kind.
-/

deriving instance DecidableEq for Except

namespace Saiba

/-- The two error kinds raised by `lib.rs` (declared via `error_chain!` in
`errors.rs`): `MalformedResponse` for framing/encoding violations,
`ResponseParse` for grammar mismatches. -/
inductive Error where
  | malformedResponse
  | responseParse
deriving DecidableEq

/-- Index of the first NUL (0) byte, as `memchr(0, bytes)` used by
`CStr::from_bytes_with_nul`. -/
def firstNulIdx : List Nat → Option Nat
  | [] => none
  | b :: rest =>
    if b = 0 then some 0
    else Option.map (fun i => i + 1) (firstNulIdx rest)

/-- `CStr::from_bytes_with_nul`: succeeds when the first NUL is the last
byte; returns the content without the terminator (as `CStr::to_bytes`
exposes it).  Any other shape (no NUL, or an interior NUL) is an error,
modelled as `none`. -/
def fromBytesWithNul (b : List Nat) : Option (List Nat) :=
  match firstNulIdx b with
  | none => none
  | some i => if i + 1 = b.length then some (b.take i) else none

/-- A UTF-8 continuation byte, `0x80 ..= 0xBF`. -/
def utf8IsCont (b : Nat) : Bool := 0x80 ≤ b && b ≤ 0xBF

/-- Strict UTF-8 decoding as validated by `CStr::to_str` /
`str::from_utf8` (RFC 3629: `0xC2..=0xDF` lead 2-byte sequences, `0xE0`
requires `0xA0..=0xBF`, `0xED` excludes surrogates, `0xF0` requires
`0x90..=0xBF`, `0xF4` caps at `0x8F`; overlongs and values above
`U+10FFFF` rejected).  Returns the decoded scalar values. -/
def utf8Decode : List Nat → Option (List Char)
  | [] => some []
  | b0 :: rest =>
    if b0 < 0x80 then
      Option.map (fun cs => Char.ofNat b0 :: cs) (utf8Decode rest)
    else if 0xC2 ≤ b0 && b0 ≤ 0xDF then
      match rest with
      | b1 :: rest1 =>
        if utf8IsCont b1 then
          Option.map (fun cs => Char.ofNat ((b0 - 0xC0) * 0x40 + (b1 - 0x80)) :: cs)
            (utf8Decode rest1)
        else none
      | [] => none
    else if 0xE0 ≤ b0 && b0 ≤ 0xEF then
      match rest with
      | b1 :: b2 :: rest2 =>
        if (if b0 = 0xE0 then 0xA0 else 0x80) ≤ b1 &&
           b1 ≤ (if b0 = 0xED then 0x9F else 0xBF) && utf8IsCont b2 then
          Option.map
            (fun cs =>
              Char.ofNat ((b0 - 0xE0) * 0x1000 + (b1 - 0x80) * 0x40 + (b2 - 0x80)) :: cs)
            (utf8Decode rest2)
        else none
      | _ => none
    else if 0xF0 ≤ b0 && b0 ≤ 0xF4 then
      match rest with
      | b1 :: b2 :: b3 :: rest3 =>
        if (if b0 = 0xF0 then 0x90 else 0x80) ≤ b1 &&
           b1 ≤ (if b0 = 0xF4 then 0x8F else 0xBF) && utf8IsCont b2 && utf8IsCont b3 then
          Option.map
            (fun cs =>
              Char.ofNat
                ((b0 - 0xF0) * 0x40000 + (b1 - 0x80) * 0x1000 +
                 (b2 - 0x80) * 0x40 + (b3 - 0x80)) :: cs)
            (utf8Decode rest3)
        else none
      | _ => none
    else none

/-- `str_from_response` (`lib.rs:44-49`): validate NUL termination via
`CStr::from_bytes_with_nul`, then UTF-8 via `CStr::to_str`; both failure
modes are chained to `ErrorKind::MalformedResponse`. -/
def strFromResponse (response : List Nat) : Except Error (List Char) :=
  match fromBytesWithNul response with
  | none => .error .malformedResponse
  | some content =>
    match utf8Decode content with
    | none => .error .malformedResponse
    | some r => .ok r

/-- `TemperatureScale` (`lib.rs:17-21`). -/
inductive TemperatureScale where
  | celsius
  | kelvin
  | fahrenheit
deriving DecidableEq

/-- `TemperatureScaleResponse` (`lib.rs:25`). -/
structure TemperatureScaleResponse where
  scale : TemperatureScale
deriving DecidableEq

/-- `TemperatureScaleResponse::parse` (`lib.rs:31-40`): extract the text,
then match it exactly against the three literals. -/
def TemperatureScaleResponse.parse (response : List Nat) :
    Except Error TemperatureScaleResponse :=
  match strFromResponse response with
  | .error e => .error e
  | .ok r =>
    if r = "?S,c".data then .ok ⟨.celsius⟩
    else if r = "?S,k".data then .ok ⟨.kelvin⟩
    else if r = "?S,f".data then .ok ⟨.fahrenheit⟩
    else .error .responseParse

/-! ## Data logger storage interval (`lib.rs:51-73`) -/

/-- `DataLoggerStorageIntervalSeconds` (`lib.rs:53`): wraps a `u32`;
the numeric parser below guarantees the value fits in 32 bits. -/
structure DataLoggerStorageIntervalSeconds where
  seconds : Nat
deriving DecidableEq

/-- `DataLoggerStorageIntervalResponse` (`lib.rs:57`). -/
structure DataLoggerStorageIntervalResponse where
  interval : DataLoggerStorageIntervalSeconds
deriving DecidableEq

/-- `2^32`, one past `u32::MAX`. -/
def u32Limit : Nat := 4294967296

/-- Accumulating digit loop of `u32::from_str_radix` at radix 10: each byte
must be a decimal digit, and `checked_mul`/`checked_add` reject any
intermediate value past `u32::MAX`. -/
def digitsToU32Go (acc : Nat) : List Char → Option Nat
  | [] => some acc
  | c :: cs =>
    if c.isDigit then
      if acc * 10 + (c.toNat - 48) < u32Limit then
        digitsToU32Go (acc * 10 + (c.toNat - 48)) cs
      else none
    else none

/-- Digit-string part of `u32::from_str`: the digits after the optional
sign must be nonempty. -/
def digitsToU32 (ds : List Char) : Option Nat :=
  match ds with
  | [] => none
  | _ => digitsToU32Go 0 ds

/-- `u32::from_str`: empty input fails; one optional leading `+` is
consumed (a `-` is not recognised for an unsigned type and falls through
to the digit loop, which rejects it); then the digit loop runs. -/
def parseU32 (s : List Char) : Option Nat :=
  match s with
  | [] => none
  | c :: ds => if c = '+' then digitsToU32 ds else digitsToU32 (c :: ds)

/-- Byte length of a scalar value in UTF-8 (`char::len_utf8`). -/
def charUtf8Size (c : Char) : Nat :=
  if c.toNat < 0x80 then 1
  else if c.toNat < 0x800 then 2
  else if c.toNat < 0x10000 then 3
  else 4

/-- `str::get(i..)` on the byte index `i`: `Some` of the suffix when `i`
is at most the byte length and falls on a character boundary, `None`
otherwise. -/
def strGetFrom : List Char → Nat → Option (List Char)
  | t, 0 => some t
  | [], _ + 1 => none
  | c :: rest, i + 1 =>
    if charUtf8Size c ≤ i + 1 then strGetFrom rest (i + 1 - charUtf8Size c)
    else none

/-- Grammar step of `DataLoggerStorageIntervalResponse::parse` after text
extraction (`lib.rs:65-71`): require the literal `"?D,"` as a byte-string
head, slice at byte index 3 (the `.unwrap()` on `r.get(3..)` is modelled
by the outer `Option`, `none` standing for the abort path), and parse the
remainder as `u32`; the numeric failure is chained to
`ErrorKind::ResponseParse`. -/
def intervalFromText (r : List Char) : Option (Except Error DataLoggerStorageIntervalResponse) :=
  if List.isPrefixOf "?D,".data r then
    match strGetFrom r 3 with
    | none => none
    | some numStr =>
      match parseU32 numStr with
      | some num => some (.ok ⟨⟨num⟩⟩)
      | none => some (.error .responseParse)
  else some (.error .responseParse)

/-- `DataLoggerStorageIntervalResponse::parse` (`lib.rs:62-72`). -/
def DataLoggerStorageIntervalResponse.parse (response : List Nat) :
    Option (Except Error DataLoggerStorageIntervalResponse) :=
  match strFromResponse response with
  | .error e => some (.error e)
  | .ok r => intervalFromText r

/-! ## Temperature reading (`lib.rs:75-106`)

`f64::from_str` of the crate's era (core `dec2flt`, Rust 1.4 through
1.54; the crate pins a 2017 nightly via `#![feature(str_checked_slicing)]`):
an optional sign, then either the exact special tokens `inf` / `NaN`
(case-sensitive in this era; case-insensitive `infinity`/`nan` arrived
only in Rust 1.32), or a decimal literal
`digits [. digits] [e|E [sign] digits]` with at least one mantissa digit
and at least one digit in a present exponent.  A grammatically valid
literal can still be rejected by the conversion stage
(`dec2flt::convert`): after `simplify` strips redundant zeros, literals
whose leading digit sits beyond the overflow/underflow cutoffs are
accepted outright as infinity/zero (`trivial_cases`), but an in-range
literal whose digit count plus absolute exponent exceeds 375 makes
`convert` bail out with an error rather than run its big-number
algorithms (rust-lang/rust#31407, unfixed until the Rust 1.55 rewrite).

The value of an accepted literal is recorded exactly as an integer
mantissa and a power-of-ten exponent; the final IEEE-754 rounding of
that exact decimal value to a `double` — including overflow to infinity
and underflow to zero — is abstracted away.  That abstraction is
faithful for every property here: the accept/reject boundary is
modelled exactly, the parsers only pass the value through, and equal
inputs give equal representations. -/

/-- Model of an `f64` value as produced by `f64::from_str`: NaN, signed
infinity, or the exact decimal value `mantissa * 10 ^ exponent` of the
literal (IEEE rounding abstracted, see above). -/
inductive F64 where
  | nan
  | inf (neg : Bool)
  | finite (mantissa : Int) (exponent : Int)
deriving DecidableEq

/-- Applying the extracted sign to the converted value (`Ok(-flt)` in
`dec2flt`); the sign of NaN is not observable. -/
def F64.applySign (neg : Bool) : F64 → F64
  | .nan => .nan
  | .inf b => .inf (if neg then !b else b)
  | .finite m e => .finite (if neg then -m else m) e

/-- Value of a digit string, most significant first. -/
def digitsVal (ds : List Char) : Nat :=
  ds.foldl (fun acc c => acc * 10 + (c.toNat - 48)) 0

/-- Outcome of the era exponent parse (`dec2flt::parse::parse_exp`):
an exact exponent, the huge-exponent bypass, or a grammar error. -/
inductive ExpResult where
  | exact (e : Int)
  | shortcut (neg : Bool)
  | invalid
deriving DecidableEq

/-- `dec2flt::parse::parse_exp`: an optional sign, then a nonempty run
of digits with nothing trailing.  An exponent with 18 or more
significant digits (leading zeros trimmed) cannot be handled exactly in
an `i64`-based pipeline and short-circuits the whole conversion to
infinity (positive sign) or zero (negative sign), bypassing the later
range analysis; both outcomes are accepts. -/
def parseExpPart (s : List Char) : ExpResult :=
  let signed : Bool × List Char :=
    match s with
    | c :: rest =>
      if c = '+' then (false, rest)
      else if c = '-' then (true, rest)
      else (false, s)
    | [] => (false, s)
  let ds := signed.2
  if ds.isEmpty || !ds.all Char.isDigit then .invalid
  else if 18 ≤ (ds.dropWhile (fun c => c == '0')).length then .shortcut signed.1
  else .exact (if signed.1 then -(digitsVal ds : Int) else (digitsVal ds : Int))

/-- Outcome of `dec2flt::parse::parse_decimal`: the mantissa digit
strings and the explicit exponent, one of the huge-exponent shortcuts,
or a grammar error. -/
inductive DecResult where
  | valid (intg frac : List Char) (exp : Int)
  | shortcutInf
  | shortcutZero
  | invalid
deriving DecidableEq

/-- Lift an exponent-parse outcome into the decimal-parse outcome. -/
def expResultToDec (intg frac : List Char) (es : List Char) : DecResult :=
  match parseExpPart es with
  | .exact e => .valid intg frac e
  | .shortcut neg => if neg then .shortcutZero else .shortcutInf
  | .invalid => .invalid

/-- `dec2flt::parse::parse_decimal` (sign already stripped): integral
digits, optional `.` and fraction digits (at least one digit between
them), optional exponent; nothing may trail. -/
def parseDecimal (s : List Char) : DecResult :=
  match s with
  | [] => .invalid
  | _ =>
    let intg := s.takeWhile Char.isDigit
    match s.dropWhile Char.isDigit with
    | [] => .valid intg [] 0
    | 'e' :: es => if intg.isEmpty then .invalid else expResultToDec intg [] es
    | 'E' :: es => if intg.isEmpty then .invalid else expResultToDec intg [] es
    | '.' :: rest2 =>
      let frac := rest2.takeWhile Char.isDigit
      if intg.isEmpty && frac.isEmpty then .invalid
      else
        match rest2.dropWhile Char.isDigit with
        | [] => .valid intg frac 0
        | 'e' :: es => expResultToDec intg frac es
        | 'E' :: es => expResultToDec intg frac es
        | _ => .invalid
    | _ => .invalid

/-- `dec2flt::simplify`: strip leading zeros of the integral part and
trailing zeros of the fractional part; then, for numbers of the form
`0.0...x` or `x0...0.0`, shift the remaining zeros into the exponent. -/
def simplify (intg frac : List Char) (exp : Int) : List Char × List Char × Int :=
  let intg1 := intg.dropWhile (fun c => c == '0')
  let frac1 := (frac.reverse.dropWhile (fun c => c == '0')).reverse
  if intg1.isEmpty then
    let lead := (frac1.takeWhile (fun c => c == '0')).length
    (intg1, frac1.dropWhile (fun c => c == '0'), exp - lead)
  else if frac1.isEmpty then
    let trail := (intg1.reverse.takeWhile (fun c => c == '0')).length
    ((intg1.reverse.dropWhile (fun c => c == '0')).reverse, frac1, exp + trail)
  else (intg1, frac1, exp)

/-- `dec2flt::convert` at the accept/reject level: after `simplify`, an
all-zero mantissa is zero; a most-significant digit beyond place `10^310`
is a trivial overflow to infinity, below place `10^-326` a trivial
underflow to zero (both accepts, recorded under the value abstraction as
the exact decimal); an in-range literal with more than 375 digits plus
absolute exponent is rejected (`rust#31407`); everything else is
converted successfully.  `none` models `Err(pfe_invalid())`. -/
def convert (intg frac : List Char) (exp : Int) : Option F64 :=
  let s := simplify intg frac exp
  let intgS := s.1
  let fracS := s.2.1
  let expS := s.2.2
  let val : F64 := .finite (digitsVal (intgS ++ fracS) : Int) (expS - fracS.length)
  if intgS.isEmpty && fracS.isEmpty then some (.finite 0 0)
  else if 310 < expS + (intgS.length : Int) then some val
  else if expS + (intgS.length : Int) < -326 then some val
  else if 375 < intgS.length + fracS.length + expS.natAbs then none
  else some val

/-- `f64::from_str` (core `dec2flt` of the era): empty input fails;
strip one optional sign; parse a decimal literal and convert it (either
step may fail); on a grammar failure accept exactly `inf` or `NaN`
(case-sensitive in this era); anything else fails. -/
def parseF64 (s : List Char) : Option F64 :=
  match s with
  | [] => none
  | _ =>
    let neg : Bool := match s with | '-' :: _ => true | _ => false
    let body : List Char := match s with
      | '+' :: rest => rest
      | '-' :: rest => rest
      | _ => s
    match parseDecimal body with
    | .valid intg frac exp => Option.map (F64.applySign neg) (convert intg frac exp)
    | .shortcutInf => some (.inf neg)
    | .shortcutZero => some (.finite 0 0)
    | .invalid =>
      if body = "inf".data then some (.inf neg)
      else if body = "NaN".data then some .nan
      else none

/-- `Temperature` (`lib.rs:77-81`): scale tag and value travel together. -/
inductive Temperature where
  | celsius (v : F64)
  | kelvin (v : F64)
  | fahrenheit (v : F64)
deriving DecidableEq

/-- `Temperature::new` (`lib.rs:84-90`). -/
def Temperature.new (scale : TemperatureScale) (value : F64) : Temperature :=
  match scale with
  | .celsius => .celsius value
  | .kelvin => .kelvin value
  | .fahrenheit => .fahrenheit value

/-- Observer: the variant tag of a `Temperature`. -/
def Temperature.scaleOf : Temperature → TemperatureScale
  | .celsius _ => .celsius
  | .kelvin _ => .kelvin
  | .fahrenheit _ => .fahrenheit

/-- Observer: the numeric payload of a `Temperature`. -/
def Temperature.value : Temperature → F64
  | .celsius v => v
  | .kelvin v => v
  | .fahrenheit v => v

/-- `TemperatureResponse` (`lib.rs:95`). -/
structure TemperatureResponse where
  temperature : Temperature
deriving DecidableEq

/-- `TemperatureResponse::parse` (`lib.rs:101-105`): extract the text,
parse it as `f64` (failure chained to `ErrorKind::ResponseParse`), tag
with the caller-supplied scale. -/
def TemperatureResponse.parse (response : List Nat) (scale : TemperatureScale) :
    Except Error TemperatureResponse :=
  match strFromResponse response with
  | .error e => .error e
  | .ok r =>
    match parseF64 r with
    | some val => .ok ⟨Temperature.new scale val⟩
    | none => .error .responseParse

/-- ASCII text followed by a terminating NUL, as the tests build buffers
with `"...\0".as_bytes()`; used only to name concrete inputs. -/
def asciiz (s : String) : List Nat :=
  s.data.map Char.toNat ++ [0]

/-! ## Framing lemmas -/

/-- `CStr::from_bytes_with_nul` succeeds exactly on `content ++ [0]` with
no NUL inside the content, and returns that content. -/
theorem fromBytesWithNul_cons (x : Nat) (rest : List Nat) (hx : ¬ x = 0) :
    fromBytesWithNul (x :: rest) = Option.map (fun c => x :: c) (fromBytesWithNul rest) := by
  unfold fromBytesWithNul
  simp only [firstNulIdx, if_neg hx]
  cases h : firstNulIdx rest with
  | none => simp
  | some i =>
    simp only [Option.map, List.length_cons, List.take_succ_cons]
    by_cases hi : i + 1 = rest.length
    · simp [hi]
    · simp [hi, if_neg (show ¬ i + 1 + 1 = rest.length + 1 by omega)]

theorem fromBytesWithNul_eq_some (b c : List Nat) :
    fromBytesWithNul b = some c ↔ (b = c ++ [0] ∧ 0 ∉ c) := by
  induction b generalizing c with
  | nil =>
    simp [fromBytesWithNul, firstNulIdx]
  | cons x rest ih =>
    by_cases hx : x = 0
    · subst hx
      cases rest with
      | nil =>
        simp only [fromBytesWithNul, firstNulIdx, if_pos rfl]
        constructor
        · intro h
          simp only [List.length_singleton, if_pos rfl, List.take_zero] at h
          cases h
          simp
        · rintro ⟨h, hmem⟩
          cases c with
          | nil => simp
          | cons c0 cs => simp at h
      | cons y ys =>
        simp only [fromBytesWithNul, firstNulIdx, if_pos rfl]
        constructor
        · intro h
          simp [List.length_cons] at h
        · rintro ⟨h, hmem⟩
          cases c with
          | nil => simp at h
          | cons c0 cs =>
            exfalso
            apply hmem
            have : (0 : Nat) = c0 := by
              have := congrArg (fun l => List.head? l) h
              simpa using this
            simp [← this]
    · rw [fromBytesWithNul_cons x rest hx]
      constructor
      · intro h
        cases ho : fromBytesWithNul rest with
        | none => rw [ho] at h; cases h
        | some c' =>
          rw [ho] at h
          simp only [Option.map] at h
          injection h with h
          obtain ⟨h1, h2⟩ := (ih c').mp ho
          subst h
          refine ⟨by rw [h1]; rfl, ?_⟩
          intro hm
          rcases List.mem_cons.mp hm with h | h
          · exact hx h.symm
          · exact h2 h
      · rintro ⟨heq, hmem⟩
        cases c with
        | nil =>
          exfalso
          simp only [List.nil_append] at heq
          have : x = 0 := by
            have := congrArg (fun l => List.head? l) heq
            simpa using this
          exact hx this
        | cons c0 cs =>
          simp only [List.cons_append, List.cons.injEq] at heq
          obtain ⟨hc0, hrest⟩ := heq
          have hcs : fromBytesWithNul rest = some cs :=
            (ih cs).mpr ⟨hrest, fun hm => hmem (List.mem_cons_of_mem _ hm)⟩
          rw [hcs]
          simp [hc0]

/-- Bridge between the `content ++ [0]` shape and the spec's phrasing:
exactly one NUL, as the last byte. -/
theorem nulShape (b c : List Nat) :
    (b = c ++ [0] ∧ 0 ∉ c) ↔
      (b.count 0 = 1 ∧ b.getLast? = some 0 ∧ c = b.dropLast) := by
  constructor
  · rintro ⟨rfl, hmem⟩
    refine ⟨?_, ?_, ?_⟩
    · rw [List.count_append]
      simp [List.count_eq_zero.mpr hmem]
    · simp [List.getLast?_concat]
    · rw [List.dropLast_concat]
  · rintro ⟨hcount, hlast, rfl⟩
    have hb : b.dropLast ++ [0] = b := List.dropLast_append_getLast? 0 hlast
    refine ⟨hb.symm, ?_⟩
    intro hm
    have : b.count 0 = b.dropLast.count 0 + 1 := by
      conv_lhs => rw [← hb]
      rw [List.count_append]
      simp
    have hpos : 0 < b.dropLast.count 0 := List.count_pos_iff.mpr hm
    omega

/-- The extractor either succeeds or reports `MalformedResponse`. -/
theorem strFromResponse_ok_or_malformed (b : List Nat) :
    (∃ t, strFromResponse b = .ok t) ∨ strFromResponse b = .error .malformedResponse := by
  cases h : fromBytesWithNul b with
  | none => exact Or.inr (by simp [strFromResponse, h])
  | some content =>
    cases h2 : utf8Decode content with
    | none => exact Or.inr (by simp [strFromResponse, h, h2])
    | some r => exact Or.inl ⟨r, by simp [strFromResponse, h, h2]⟩

/-- Success characterisation of the extractor, in the spec's terms. -/
theorem strFromResponse_ok_iff (b : List Nat) (t : List Char) :
    strFromResponse b = .ok t ↔
      (b.count 0 = 1 ∧ b.getLast? = some 0 ∧ utf8Decode b.dropLast = some t) := by
  constructor
  · intro h
    cases hN : fromBytesWithNul b with
    | none => simp [strFromResponse, hN] at h
    | some content =>
      cases hU : utf8Decode content with
      | none => simp [strFromResponse, hN, hU] at h
      | some r =>
        have hr : r = t := by simpa [strFromResponse, hN, hU] using h
        obtain ⟨hcount, hlast, hc⟩ :=
          (nulShape b content).mp ((fromBytesWithNul_eq_some b content).mp hN)
        exact ⟨hcount, hlast, by rw [← hc, hU, hr]⟩
  · rintro ⟨hcount, hlast, hdec⟩
    have hN : fromBytesWithNul b = some b.dropLast :=
      (fromBytesWithNul_eq_some b b.dropLast).mpr
        ((nulShape b b.dropLast).mpr ⟨hcount, hlast, rfl⟩)
    simp [strFromResponse, hN, hdec]

/-- **C1**: the response-text extractor succeeds if and only if the buffer
contains exactly one NUL byte, that NUL is the last byte, and the bytes
before it decode as UTF-8; on success it returns the decoded text without
the terminator, and on any other shape it fails with `MalformedResponse`. -/
theorem extractor_well_framed_characterisation (b : List Nat) :
    (∀ t, strFromResponse b = .ok t ↔
        (b.count 0 = 1 ∧ b.getLast? = some 0 ∧ utf8Decode b.dropLast = some t)) ∧
    (¬ (b.count 0 = 1 ∧ b.getLast? = some 0 ∧ (utf8Decode b.dropLast).isSome) →
      strFromResponse b = .error .malformedResponse) := by
  refine ⟨fun t => strFromResponse_ok_iff b t, fun hnot => ?_⟩
  rcases strFromResponse_ok_or_malformed b with ⟨t, ht⟩ | h
  · exfalso
    obtain ⟨hcount, hlast, hdec⟩ := (strFromResponse_ok_iff b t).mp ht
    exact hnot ⟨hcount, hlast, by rw [hdec]; rfl⟩
  · exact h

/-- Witness for `extractor_well_framed_characterisation`: the buffer
`[0x41, 0x00]` is accepted as the text `"A"`, and `[0x41]` (no
terminator) is rejected as malformed. -/
theorem extractor_well_framed_characterisation_witness :
    strFromResponse [65, 0] = .ok ['A'] ∧
      strFromResponse [65] = .error .malformedResponse :=
  ⟨((extractor_well_framed_characterisation [65, 0]).1 ['A']).mpr (by decide),
   (extractor_well_framed_characterisation [65]).2 (by decide)⟩

/-! ## Interval parser lemmas -/

/-- A text begins with the byte-string literal `"?D,"` exactly when it is
`'?' :: 'D' :: ',' ::` a remainder. -/
theorem headerD_iff (t : List Char) :
    (List.isPrefixOf "?D,".data t : Bool) ↔ ∃ rest, t = '?' :: 'D' :: ',' :: rest := by
  rw [List.isPrefixOf_iff_prefix]
  constructor
  · rintro ⟨r, hr⟩
    exact ⟨r, hr.symm⟩
  · rintro ⟨rest, rfl⟩
    exact ⟨rest, rfl⟩

/-- Slicing at byte index 3 after the 3-byte ASCII header lands on a
character boundary and yields the remainder. -/
theorem strGetFrom_headerD (rest : List Char) :
    strGetFrom ('?' :: 'D' :: ',' :: rest) 3 = some rest := by
  simp [strGetFrom, charUtf8Size]

/-- The interval grammar, with the slice resolved: the `.unwrap()` path is
never taken. -/
theorem intervalFromText_eq (t : List Char) :
    intervalFromText t =
      if List.isPrefixOf "?D,".data t then
        some (match parseU32 (t.drop 3) with
              | some n => .ok ⟨⟨n⟩⟩
              | none => .error .responseParse)
      else some (.error .responseParse) := by
  by_cases h : (List.isPrefixOf "?D,".data t : Bool)
  · obtain ⟨rest, rfl⟩ := (headerD_iff _).mp h
    rw [intervalFromText, if_pos h, if_pos h, strGetFrom_headerD]
    have hdrop : List.drop 3 ('?' :: 'D' :: ',' :: rest) = rest := by simp
    rw [hdrop]
    cases hu : parseU32 rest with
    | none => simp [hu]
    | some m => simp [hu]
  · rw [intervalFromText, if_neg h, if_neg h]

/-- After extraction to `'?' :: 'D' :: ',' :: rest`, the remainder in the
claim's shape is forced to be `rest`. -/
theorem exists_rest_iff (rest : List Char) (n : Nat) :
    (∃ r, ('?' :: 'D' :: ',' :: rest : List Char) = "?D,".data ++ r ∧ parseU32 r = some n) ↔
      parseU32 rest = some n := by
  constructor
  · rintro ⟨r, hr, hp⟩
    have : rest = r := by simpa using hr
    rw [this]
    exact hp
  · intro hp
    exact ⟨rest, rfl, hp⟩

/-- **C4**: for a well-framed buffer, the interval parser succeeds exactly
when the text is `"?D,"` followed by a remainder accepted by
`u32::from_str`, wrapping that integer; otherwise it fails with
`ResponseParse`. -/
theorem interval_parse_characterisation (b : List Nat) (t : List Char)
    (h : strFromResponse b = .ok t) :
    (∀ n, DataLoggerStorageIntervalResponse.parse b = some (.ok ⟨⟨n⟩⟩) ↔
        ∃ rest, t = "?D,".data ++ rest ∧ parseU32 rest = some n) ∧
    ((¬ ∃ rest n, t = "?D,".data ++ rest ∧ parseU32 rest = some n) →
      DataLoggerStorageIntervalResponse.parse b = some (.error .responseParse)) := by
  have hp : DataLoggerStorageIntervalResponse.parse b = intervalFromText t := by
    simp [DataLoggerStorageIntervalResponse.parse, h]
  rw [hp, intervalFromText_eq]
  by_cases hpre : (List.isPrefixOf "?D,".data t : Bool)
  · obtain ⟨rest, rfl⟩ := (headerD_iff _).mp hpre
    rw [if_pos hpre]
    have hdrop : ('?' :: 'D' :: ',' :: rest).drop 3 = rest := rfl
    rw [hdrop]
    constructor
    · intro n
      rw [exists_rest_iff]
      cases hu : parseU32 rest with
      | some m => simp
      | none => simp
    · intro hno
      cases hu : parseU32 rest with
      | some m => exact absurd ⟨rest, m, rfl, hu⟩ hno
      | none => simp
  · rw [if_neg hpre]
    constructor
    · intro n
      constructor
      · intro he
        simp at he
      · rintro ⟨rest, hr, -⟩
        exfalso
        apply hpre
        rw [hr]
        exact (headerD_iff _).mpr ⟨rest, rfl⟩
    · intro _
      rfl

/-- Witness for `interval_parse_characterisation`: `"?D,42\0"` is
well-framed and parses to 42 seconds. -/
theorem interval_parse_characterisation_witness :
    DataLoggerStorageIntervalResponse.parse (asciiz "?D,42") = some (.ok ⟨⟨42⟩⟩) :=
  ((interval_parse_characterisation (asciiz "?D,42") "?D,42".data (by decide)).1 42).mpr
    ⟨"42".data, by decide, by decide⟩

/-- **C9**: the `.unwrap()` on `r.get(3..)` never aborts: whenever the
extracted text starts with the 3-byte ASCII header `"?D,"`, slicing at
byte index 3 yields `Some` of the remainder, so the interval parser is
total on every buffer (it never reaches the `none` panic path). -/
theorem interval_slice_unwrap_total (t : List Char) (b : List Nat)
    (h : (List.isPrefixOf "?D,".data t : Bool)) :
    strGetFrom t 3 = some (t.drop 3) ∧
      DataLoggerStorageIntervalResponse.parse b ≠ none := by
  constructor
  · obtain ⟨rest, rfl⟩ := (headerD_iff t).mp h
    rw [strGetFrom_headerD]
    simp
  · rcases strFromResponse_ok_or_malformed b with ⟨r, hr⟩ | hm
    · have hpr : DataLoggerStorageIntervalResponse.parse b = intervalFromText r := by
        simp [DataLoggerStorageIntervalResponse.parse, hr]
      rw [hpr, intervalFromText_eq]
      by_cases hp : (List.isPrefixOf "?D,".data r : Bool)
      · rw [if_pos hp]
        simp
      · rw [if_neg hp]
        simp
    · simp [DataLoggerStorageIntervalResponse.parse, hm]

/-- Witness for `interval_slice_unwrap_total`: the text `"?D,5"` and the
buffer `"?D,5\0"`. -/
theorem interval_slice_unwrap_total_witness :
    strGetFrom "?D,5".data 3 = some ("?D,5".data.drop 3) ∧
      DataLoggerStorageIntervalResponse.parse (asciiz "?D,5") ≠ none :=
  interval_slice_unwrap_total "?D,5".data (asciiz "?D,5") (by decide)

/-- The leading `+` accepted by `u32::from_str` makes the interval parser
treat `"?D,+<digits>"` like `"?D,<digits>"`. -/
theorem interval_plus_sign_accepted (b : List Nat) (t rest : List Char)
    (h : strFromResponse b = .ok t) (ht : t = "?D,+".data ++ rest) :
    DataLoggerStorageIntervalResponse.parse b =
      some (match digitsToU32 rest with
            | some n => .ok ⟨⟨n⟩⟩
            | none => .error .responseParse) := by
  subst ht
  have hp : DataLoggerStorageIntervalResponse.parse b =
      intervalFromText ("?D,+".data ++ rest) := by
    simp [DataLoggerStorageIntervalResponse.parse, h]
  rw [hp, intervalFromText_eq]
  have hshape : ("?D,+".data ++ rest : List Char) = '?' :: 'D' :: ',' :: ('+' :: rest) := rfl
  rw [if_pos (by rw [hshape]; exact (headerD_iff _).mpr ⟨'+' :: rest, rfl⟩)]
  have hdrop : ("?D,+".data ++ rest).drop 3 = '+' :: rest := by rw [hshape]; simp
  rw [hdrop]
  have hplus : parseU32 ('+' :: rest) = digitsToU32 rest := by simp [parseU32]
  rw [hplus]

/-- Witness for `interval_plus_sign_accepted`: `"?D,+5\0"` parses
successfully to 5 seconds. -/
theorem interval_plus_sign_accepted_witness :
    DataLoggerStorageIntervalResponse.parse (asciiz "?D,+5") = some (.ok ⟨⟨5⟩⟩) := by
  rw [interval_plus_sign_accepted (asciiz "?D,+5") "?D,+5".data "5".data (by decide) rfl]
  decide

/-- Counterexample to the claim that a leading `+` is rejected:
`"?D,+5\0"` succeeds with value 5 instead of failing with
`ResponseParse`. -/
theorem interval_plus_sign_counterexample :
    DataLoggerStorageIntervalResponse.parse (asciiz "?D,+5") = some (.ok ⟨⟨5⟩⟩) ∧
      ¬ DataLoggerStorageIntervalResponse.parse (asciiz "?D,+5") =
          some (.error .responseParse) := by
  decide

/-- The digit loop only returns values built by the decimal fold, always
below `2^32`. -/
theorem digitsToU32Go_sound (ds : List Char) :
    ∀ (acc n : Nat), digitsToU32Go acc ds = some n → acc < u32Limit →
      n = ds.foldl (fun a c => a * 10 + (c.toNat - 48)) acc ∧ n < u32Limit := by
  induction ds with
  | nil =>
    intro acc n h hacc
    simp only [digitsToU32Go, Option.some.injEq] at h
    subst h
    exact ⟨rfl, hacc⟩
  | cons c cs ih =>
    intro acc n h hacc
    simp only [digitsToU32Go] at h
    by_cases hd : (c.isDigit : Bool)
    · rw [if_pos hd] at h
      by_cases hlt : acc * 10 + (c.toNat - 48) < u32Limit
      · rw [if_pos hlt] at h
        obtain ⟨h1, h2⟩ := ih _ _ h hlt
        exact ⟨by simpa using h1, h2⟩
      · rw [if_neg hlt] at h
        cases h
    · rw [if_neg hd] at h
      cases h

/-- **C6**: a well-framed `"?D,<digits>"` whose numeral value exceeds
`u32::MAX` fails with `ResponseParse` instead of wrapping a truncated
value. -/
theorem interval_overflow_rejected (b : List Nat) (t ds : List Char)
    (h : strFromResponse b = .ok t) (ht : t = "?D,".data ++ ds)
    (hne : ds ≠ []) (hdig : ∀ c ∈ ds, c.isDigit)
    (hof : u32Limit ≤ digitsVal ds) :
    DataLoggerStorageIntervalResponse.parse b = some (.error .responseParse) := by
  subst ht
  have hp : DataLoggerStorageIntervalResponse.parse b =
      intervalFromText ("?D,".data ++ ds) := by
    simp [DataLoggerStorageIntervalResponse.parse, h]
  rw [hp, intervalFromText_eq]
  have hshape : ("?D,".data ++ ds : List Char) = '?' :: 'D' :: ',' :: ds := rfl
  rw [if_pos (by rw [hshape]; exact (headerD_iff _).mpr ⟨ds, rfl⟩)]
  have hdrop : ("?D,".data ++ ds).drop 3 = ds := by rw [hshape]; simp
  rw [hdrop]
  have hnone : parseU32 ds = none := by
    cases ds with
    | nil => exact absurd rfl hne
    | cons d ds' =>
      have hd : d.isDigit := hdig d (List.mem_cons_self d ds')
      have hdplus : ¬ d = '+' := by
        intro hd2
        rw [hd2] at hd
        exact absurd hd (by decide)
      simp only [parseU32, if_neg hdplus]
      simp only [digitsToU32]
      cases hgo : digitsToU32Go 0 (d :: ds') with
      | none => rfl
      | some n =>
        exfalso
        obtain ⟨h1, h2⟩ := digitsToU32Go_sound _ _ _ hgo (by norm_num [u32Limit])
        have hval : n = digitsVal (d :: ds') := h1
        omega
  rw [hnone]

/-- Witness for `interval_overflow_rejected`: `"?D,4294967296\0"` (the
numeral is `2^32`) fails with `ResponseParse`. -/
theorem interval_overflow_rejected_witness :
    DataLoggerStorageIntervalResponse.parse (asciiz "?D,4294967296") =
      some (.error .responseParse) :=
  interval_overflow_rejected (asciiz "?D,4294967296") "?D,4294967296".data
    "4294967296".data (by decide) rfl (by decide) (by decide) (by decide)

/-! ## Scale parser, reading parser, and error-kind claims -/

/-- Any buffer that is not NUL-terminated, has a NUL before the last byte,
or whose content is not valid UTF-8, makes the extractor fail with
`MalformedResponse`. -/
theorem strFromResponse_malformed (b : List Nat)
    (hcond : b.getLast? ≠ some 0 ∨ (0 : Nat) ∈ b.dropLast ∨ utf8Decode b.dropLast = none) :
    strFromResponse b = .error .malformedResponse := by
  rcases strFromResponse_ok_or_malformed b with ⟨t, ht⟩ | hm
  · exfalso
    obtain ⟨hcount, hlast, hdec⟩ := (strFromResponse_ok_iff b t).mp ht
    rcases hcond with hc | hc | hc
    · exact hc hlast
    · have hb : b.dropLast ++ [0] = b := List.dropLast_append_getLast? 0 hlast
      have hsplit : b.count 0 = b.dropLast.count 0 + 1 := by
        conv_lhs => rw [← hb]
        rw [List.count_append]
        simp
      have hpos : 0 < b.dropLast.count 0 := List.count_pos_iff.mpr hc
      omega
    · rw [hc] at hdec
      cases hdec
  · exact hm

/-- **C2 (amended)**: empty, non-NUL-terminated, and invalid-encoding
buffers fail with `MalformedResponse` for all three parsers; but the
buffer holding only a NUL is well-framed (empty text) and fails with
`ResponseParse`, not `MalformedResponse`. -/
theorem framing_failures_malformed (b : List Nat) (scale : TemperatureScale) :
    ((b.getLast? ≠ some 0 ∨ (0 : Nat) ∈ b.dropLast ∨ utf8Decode b.dropLast = none) →
      TemperatureScaleResponse.parse b = .error .malformedResponse ∧
      DataLoggerStorageIntervalResponse.parse b = some (.error .malformedResponse) ∧
      TemperatureResponse.parse b scale = .error .malformedResponse) ∧
    (TemperatureScaleResponse.parse [0] = .error .responseParse ∧
      DataLoggerStorageIntervalResponse.parse [0] = some (.error .responseParse) ∧
      TemperatureResponse.parse [0] scale = .error .responseParse) := by
  constructor
  · intro hcond
    have hm := strFromResponse_malformed b hcond
    exact ⟨by simp [TemperatureScaleResponse.parse, hm],
      by simp [DataLoggerStorageIntervalResponse.parse, hm],
      by simp [TemperatureResponse.parse, hm]⟩
  · cases scale <;> exact ⟨by decide, by decide, by decide⟩

/-- Witness for `framing_failures_malformed`: the single byte `0x01`
(not NUL-terminated) is malformed for all three parsers. -/
theorem framing_failures_malformed_witness :
    TemperatureScaleResponse.parse [1] = .error .malformedResponse ∧
      DataLoggerStorageIntervalResponse.parse [1] = some (.error .malformedResponse) ∧
      TemperatureResponse.parse [1] .celsius = .error .malformedResponse :=
  (framing_failures_malformed [1] .celsius).1 (Or.inl (by decide))

/-- Counterexample to C2 as stated: the buffer holding only a NUL byte
fails with `ResponseParse`, not `MalformedResponse` (its framing is
valid; its text is empty). -/
theorem framing_only_nul_counterexample :
    TemperatureScaleResponse.parse [0] = .error .responseParse ∧
      ¬ TemperatureScaleResponse.parse [0] = .error .malformedResponse := by
  decide

/-- **C3**: for a well-framed buffer, the scale parser succeeds exactly on
the three case-sensitive literals, mapping them to Celsius, Kelvin and
Fahrenheit; any other extracted text fails with `ResponseParse`. -/
theorem scale_parse_exact_literals (b : List Nat) (t : List Char)
    (h : strFromResponse b = .ok t) :
    (TemperatureScaleResponse.parse b = .ok ⟨.celsius⟩ ↔ t = "?S,c".data) ∧
    (TemperatureScaleResponse.parse b = .ok ⟨.kelvin⟩ ↔ t = "?S,k".data) ∧
    (TemperatureScaleResponse.parse b = .ok ⟨.fahrenheit⟩ ↔ t = "?S,f".data) ∧
    (t ≠ "?S,c".data → t ≠ "?S,k".data → t ≠ "?S,f".data →
      TemperatureScaleResponse.parse b = .error .responseParse) := by
  have hp : TemperatureScaleResponse.parse b =
      (if t = "?S,c".data then .ok ⟨.celsius⟩
       else if t = "?S,k".data then .ok ⟨.kelvin⟩
       else if t = "?S,f".data then .ok ⟨.fahrenheit⟩
       else .error .responseParse) := by
    simp [TemperatureScaleResponse.parse, h]
  rw [hp]
  split_ifs with h1 h2 h3
  · subst h1
    exact ⟨by decide, by decide, by decide, fun hc _ _ => absurd rfl hc⟩
  · subst h2
    exact ⟨by decide, by decide, by decide, fun _ hk _ => absurd rfl hk⟩
  · subst h3
    exact ⟨by decide, by decide, by decide, fun _ _ hf => absurd rfl hf⟩
  · exact ⟨by simp [h1], by simp [h2], by simp [h3], fun _ _ _ => rfl⟩

/-- Witness for `scale_parse_exact_literals`: `"?S,k\0"` decodes to
Kelvin. -/
theorem scale_parse_exact_literals_witness :
    TemperatureScaleResponse.parse (asciiz "?S,k") = .ok ⟨.kelvin⟩ :=
  ((scale_parse_exact_literals (asciiz "?S,k") "?S,k".data (by decide)).2.1).mpr rfl

/-- **C7**: for a well-framed buffer and any supplied scale, a text
accepted by `f64::from_str` yields a `Temperature` whose variant tag is
the supplied scale and whose payload is the parsed value; a rejected
text — empty, non-numeric, or an in-range literal over the era's
375-digit conversion limit (`rust#31407`) — fails with `ResponseParse`
for every scale.  `parseF64` models the era accept/reject boundary
exactly, including the `dec2flt::convert` bail-out and the
case-sensitive `inf`/`NaN` specials. -/
theorem reading_parse_characterisation (b : List Nat) (t : List Char)
    (scale : TemperatureScale) (h : strFromResponse b = .ok t) :
    (∀ v, parseF64 t = some v →
        TemperatureResponse.parse b scale = .ok ⟨Temperature.new scale v⟩ ∧
        (Temperature.new scale v).scaleOf = scale ∧
        (Temperature.new scale v).value = v) ∧
    (parseF64 t = none → TemperatureResponse.parse b scale = .error .responseParse) := by
  constructor
  · intro v hv
    refine ⟨by simp [TemperatureResponse.parse, h, hv], ?_, ?_⟩
    · cases scale <;> rfl
    · cases scale <;> rfl
  · intro hv
    simp [TemperatureResponse.parse, h, hv]

/-- Witness for `reading_parse_characterisation`: `"1234.5\0"` with
Kelvin succeeds tagged Kelvin; `"\0"` (empty text) fails with
`ResponseParse`. -/
theorem reading_parse_characterisation_witness :
    TemperatureResponse.parse (asciiz "1234.5") .kelvin =
        .ok ⟨.kelvin (.finite 12345 (-1))⟩ ∧
      TemperatureResponse.parse (asciiz "") .celsius = .error .responseParse :=
  ⟨((reading_parse_characterisation (asciiz "1234.5") "1234.5".data .kelvin
      (by decide)).1 (.finite 12345 (-1)) (by decide)).1,
   (reading_parse_characterisation (asciiz "") "".data .celsius (by decide)).2 (by decide)⟩

/-- **C8**: the three parse operations are deterministic and stateless:
equal inputs give equal results; each is a pure function of its
arguments alone. -/
theorem parsers_deterministic (b₁ b₂ : List Nat) (s₁ s₂ : TemperatureScale)
    (hb : b₁ = b₂) (hs : s₁ = s₂) :
    TemperatureScaleResponse.parse b₁ = TemperatureScaleResponse.parse b₂ ∧
    DataLoggerStorageIntervalResponse.parse b₁ = DataLoggerStorageIntervalResponse.parse b₂ ∧
    TemperatureResponse.parse b₁ s₁ = TemperatureResponse.parse b₂ s₂ := by
  subst hb
  subst hs
  exact ⟨rfl, rfl, rfl⟩

/-- Witness for `parsers_deterministic` at `"?S,c\0"` and Celsius. -/
theorem parsers_deterministic_witness :
    TemperatureScaleResponse.parse (asciiz "?S,c") =
        TemperatureScaleResponse.parse (asciiz "?S,c") ∧
      DataLoggerStorageIntervalResponse.parse (asciiz "?S,c") =
        DataLoggerStorageIntervalResponse.parse (asciiz "?S,c") ∧
      TemperatureResponse.parse (asciiz "?S,c") .celsius =
        TemperatureResponse.parse (asciiz "?S,c") .celsius :=
  parsers_deterministic (asciiz "?S,c") (asciiz "?S,c") .celsius .celsius rfl rfl

/-- The shape named by C10 — optional `-`, digits, optional fractional
part — stated from the claim's wording, to contrast with what
`f64::from_str` actually accepts. -/
def plainDecimalForm (s : List Char) : Bool :=
  let body : List Char := match s with
    | '-' :: rest => rest
    | _ => s
  let intg := body.takeWhile Char.isDigit
  let rest := body.dropWhile Char.isDigit
  (!intg.isEmpty) &&
    (rest.isEmpty || ((rest.head? == some '.') && rest.tail.all Char.isDigit))

/-- **C10**: the reading parser accepts everything `f64::from_str`
accepts, not only plain decimal literals: the well-framed buffers
`"inf\0"`, `"NaN\0"` and `"+3.5\0"`, none of which matches the plain
form, all parse successfully. -/
theorem reading_accepts_beyond_plain_decimals :
    plainDecimalForm "inf".data = false ∧
    plainDecimalForm "NaN".data = false ∧
    plainDecimalForm "+3.5".data = false ∧
    TemperatureResponse.parse (asciiz "inf") .celsius = .ok ⟨.celsius (.inf false)⟩ ∧
    TemperatureResponse.parse (asciiz "NaN") .kelvin = .ok ⟨.kelvin .nan⟩ ∧
    TemperatureResponse.parse (asciiz "+3.5") .fahrenheit =
      .ok ⟨.fahrenheit (.finite 35 (-1))⟩ := by
  decide

end Saiba
